import Mathlib

/-!
# Verification of the gobugspots hotspot engine

Shallow embedding of the `bugspots` Go package (`bugspots.go`: record parsing,
score engine, slicer) together with proofs about the claims of the
specification.

Modelling conventions:
* Go `int`/`int64` values are modelled as `Int` (no overflow occurs in the
  quantities involved: timestamps and list lengths).
* `float64` arithmetic inside the score engine is idealized as exact real
  arithmetic over `ℝ`.  The one place where IEEE special values matter — the
  division by zero in `normalizeTimestamp` when the first and last commit
  timestamps coincide — is modelled separately and faithfully by the `F64`
  type, which has explicit NaN and infinity values.
* `float64` values inside the `Slicer` are idealized as exact rationals `ℚ`;
  every concrete value evaluated in the theorems below is exactly
  representable in `float64`, and the conversions `float64(int)` are exact for
  the magnitudes involved (below `2^53`).
* a Go function returning `(T, error)` becomes `Except String T` or
  `Option T`; a Go `panic` becomes the `none` value of an `Option`.
-/

namespace Bugspots

/-- A parsed bug-fix commit: Unix timestamp (`commit.t.Unix()`) and the list of
touched files, mirroring the Go `commit` struct. -/
structure Commit where
  t : Int
  files : List String
deriving DecidableEq, Repr

/-- A bug-prone file with its score, mirroring the Go `Hotspot` struct.  The
`float64` score is idealized as a real number. -/
structure Hotspot where
  File : String
  Score : ℝ

/-! ## RecordParser

`parseLog` assumes `git log --format=format:%ct --name-only` output: blocks
separated by a blank line, each block a decimal timestamp line followed by
touched-file lines.  The Go code uses `strings.Split(raw, "\n\n")` and
`strings.Split(block, "\n")`; since the separators are fixed, they are
embedded as the structurally recursive functions `splitBlocks` and
`splitLines` on the character list of the string (Go strings are byte
sequences; all inputs considered are ASCII). -/

/-- `strings.Split(s, "\n")` on the character level: splits at every newline;
always returns at least one (possibly empty) field. -/
def splitLines : List Char → List (List Char)
  | [] => [[]]
  | c :: rest =>
    match splitLines rest with
    | [] => [[c]]
    | f :: fs => if c = '\n' then [] :: f :: fs else (c :: f) :: fs

/-- `strings.Split(s, "\n\n")` on the character level: splits at every
(non-overlapping, leftmost-first) occurrence of two consecutive newlines. -/
def splitBlocks : List Char → List (List Char)
  | [] => [[]]
  | '\n' :: '\n' :: rest => [] :: splitBlocks rest
  | c :: rest =>
    match splitBlocks rest with
    | [] => [[c]]
    | f :: fs => (c :: f) :: fs

/-- Digit accumulator for `goAtoi`: `some` of the value if every character is
a decimal digit, `none` otherwise.  (`digitsVal [] = some 0`; the caller
rejects empty digit strings.) -/
def digitsVal (l : List Char) : Option Nat :=
  l.foldl
    (fun acc c =>
      match acc with
      | none => none
      | some n => if c.isDigit then some (n * 10 + (c.toNat - '0'.toNat)) else none)
    (some 0)

/-- `strconv.Atoi`: an optional sign followed by at least one decimal digit.
(Go additionally range-checks against the machine `int`; no timestamp in the
claims comes near that bound, so the model is unbounded.) -/
def goAtoi (s : String) : Option Int :=
  match s.data with
  | [] => none
  | '+' :: rest =>
    if rest = [] then none else (digitsVal rest).map (fun n => (n : Int))
  | '-' :: rest =>
    if rest = [] then none else (digitsVal rest).map (fun n => -(n : Int))
  | l => (digitsVal l).map (fun n => (n : Int))

/-- The loop body of `parseLog`: parse each block in order; the first line of
a block must be an integer timestamp (Go: `strconv.Atoi(lines[0])`), the rest
are the touched files (`lines[1:]`).  A failing `Atoi` aborts the whole batch
with an error (the Go error text is `invalid timestamp '<line>'`; the quotes
are omitted here). -/
def parseBlocks : List (List Char) → Except String (List Commit)
  | [] => Except.ok []
  | b :: bs =>
    match goAtoi (((splitLines b).map (fun l => String.mk l)).headD "") with
    | none =>
      Except.error ("invalid timestamp " ++ ((splitLines b).map (fun l => String.mk l)).headD "")
    | some t =>
      match parseBlocks bs with
      | Except.error e => Except.error e
      | Except.ok cs => Except.ok (⟨t, ((splitLines b).map (fun l => String.mk l)).tail⟩ :: cs)

/-- `parseLog` (bugspots.go lines 81–96): empty input yields no commits;
otherwise the input is split into blocks at blank lines and each block is
parsed, aborting on the first malformed timestamp. -/
def parseLog (raw : String) : Except String (List Commit) :=
  if raw = "" then Except.ok [] else parseBlocks (splitBlocks raw.data)

/-! ## IEEE float64 model for the degenerate time range

`normalizeTimestamp` divides `float64(t-lo)` by `float64(hi-lo)`.  The `F64`
type models a `float64` as NaN, a signed infinity, or a finite value
(idealized as an exact rational — exact for the conversions involved, whose
arguments stay below `2^53`). -/

/-- A `float64` value: NaN, ±infinity, or a finite value. -/
inductive F64 where
  | nan : F64
  | posInf : F64
  | negInf : F64
  | num : ℚ → F64
deriving DecidableEq, Repr

/-- IEEE-754 division on `F64` (signed zeros are not distinguished; no claim
depends on them).  The decisive clauses are the finite ones: `x / 0` is NaN
when `x = 0` and ±infinity otherwise. -/
def f64Div : F64 → F64 → F64
  | F64.nan, _ => F64.nan
  | _, F64.nan => F64.nan
  | F64.num a, F64.num b =>
    if b = 0 then (if a = 0 then F64.nan else if 0 < a then F64.posInf else F64.negInf)
    else F64.num (a / b)
  | F64.posInf, F64.num b => if 0 ≤ b then F64.posInf else F64.negInf
  | F64.negInf, F64.num b => if 0 ≤ b then F64.negInf else F64.posInf
  | F64.num _, F64.posInf => F64.num 0
  | F64.num _, F64.negInf => F64.num 0
  | F64.posInf, F64.posInf => F64.nan
  | F64.posInf, F64.negInf => F64.nan
  | F64.negInf, F64.posInf => F64.nan
  | F64.negInf, F64.negInf => F64.nan

/-- `normalizeTimestamp` (bugspots.go lines 165–167) at the `float64` level:
`float64(t-lo) / float64(hi-lo)`.  The `int64` subtractions are exact, and the
`int64 → float64` conversions are exact for all timestamps in range. -/
def normalizeTimestampF (t lo hi : Int) : F64 :=
  f64Div (F64.num ((t - lo : Int) : ℚ)) (F64.num ((hi - lo : Int) : ℚ))

/-! ## Slicer

The `Slicer` (bugspots.go lines 218–257) extracts an upper percentile from a
hotspot list, between a minimum and a maximum number of entries.  Its `Slice`
method computes
`retCount = min(maxCount, max(minCount, percentile/100*len))` in `float64`
and then evaluates `hotspots[:int(retCount)]`; a Go slice expression with a
bound below `0` or above the length panics, modelled by `none`.  The slicer
never inspects the entries, so the embedding is generic in the element
type. -/

/-- Go `DefaultMinCount = 0`. -/
def DefaultMinCount : Int := 0

/-- Go `DefaultMaxCount = math.MaxInt32`. -/
def DefaultMaxCount : Int := 2147483647

/-- Go `DefaultPercentile = 10.0`. -/
def DefaultPercentile : ℚ := 10

/-- The `Slicer` struct: `minCount`, `maxCount` (Go `int`) and `percentile`
(Go `float64`, idealized as `ℚ`). -/
structure Slicer where
  minCount : Int
  maxCount : Int
  percentile : ℚ
deriving DecidableEq, Repr

/-- `NewSlicer` (bugspots.go lines 227–233): stores the given percentile with
default bounds, without validating anything. -/
def NewSlicer (percentile : ℚ) : Slicer :=
  ⟨DefaultMinCount, DefaultMaxCount, percentile⟩

/-- `Slicer.SetMinCount` (bugspots.go lines 237–242): panics (`none`) when the
argument is negative, otherwise updates the field. -/
def Slicer.SetMinCount (s : Slicer) (minCount : Int) : Option Slicer :=
  if minCount < 0 then none else some { s with minCount := minCount }

/-- `Slicer.SetMaxCount` (bugspots.go lines 246–251): panics (`none`) when the
argument is not positive, otherwise updates the field. -/
def Slicer.SetMaxCount (s : Slicer) (maxCount : Int) : Option Slicer :=
  if maxCount ≤ 0 then none else some { s with maxCount := maxCount }

/-- Go's `int(x)` conversion from `float64`: truncation toward zero. -/
def goTrunc (q : ℚ) : Int := if 0 ≤ q then ⌊q⌋ else -⌊-q⌋

/-- `Slicer.Slice` (bugspots.go lines 254–257):
`retCount := math.Min(float64(maxCount), math.Max(float64(minCount), percentile/100*float64(len)))`
followed by `hotspots[:int(retCount)]`.  The slice expression panics
(modelled `none`) when the truncated count is negative or exceeds the list
length. -/
def Slicer.Slice {α : Type} (s : Slicer) (hotspots : List α) : Option (List α) :=
  let retCount : ℚ :=
    min ((s.maxCount : ℚ)) (max ((s.minCount : ℚ)) (s.percentile / 100 * (hotspots.length : ℚ)))
  let k : Int := goTrunc retCount
  if 0 ≤ k ∧ k ≤ (hotspots.length : Int) then some (hotspots.take k.toNat) else none

/-! ## ScoreEngine

`Hotspots` (bugspots.go lines 188–214) obtains four history facts — head file
list, first commit timestamp, last commit timestamp, matching bug-fix
commits — then scores every head file and sorts the non-zero-score files with
`sort.Sort`.  The model takes each query's result as an `Except` parameter.

The Go code reuses a single `err` variable across the four queries and checks
it only once, after the fourth: the final result is an error exactly when the
`bugFixCommits` query fails, and a failed earlier query silently contributes
its zero value (`nil` file list, timestamp `0`) — captured by `orNil` and
`orZero` below.

`sort.Sort` is from the Go standard library, not this repository; it is
modelled by its documented contract (`GoSortedBy`): the result is a
permutation of the input that is sorted with respect to `Less`, and the sort
is explicitly *not* guaranteed to be stable. -/

/-- `normalizeTimestamp` (bugspots.go lines 165–167),
`float64(t-lo) / float64(hi-lo)`, idealized over `ℝ`.  (For the IEEE
behaviour on a zero divisor see `normalizeTimestampF`.) -/
noncomputable def normalizeTimestamp (t lo hi : Int) : ℝ :=
  ((t - lo : Int) : ℝ) / ((hi - lo : Int) : ℝ)

/-- `scoreFunc` (bugspots.go lines 169–171): the logistic decay weight
`1 / (1 + exp(-12 t + 12))`. -/
noncomputable def scoreFunc (t : ℝ) : ℝ :=
  1 / (1 + Real.exp (-12 * t + 12))

/-- The score accumulation for one head file: the two inner loops of
`Hotspots` — for every commit and every entry of its file list that equals
the head file, add `scoreFunc` of the commit's normalized timestamp. -/
noncomputable def fileScore (headFile : String) (tfirst tlast : Int)
    (commits : List Commit) : ℝ :=
  commits.foldl
    (fun score c =>
      let t := normalizeTimestamp c.t tfirst tlast
      c.files.foldl (fun sc file => if file = headFile then sc + scoreFunc t else sc) score)
    0

/-- The hotspot list built by the outer loop of `Hotspots`, before sorting:
one entry per head file with non-zero score, in head-file order. -/
noncomputable def hotspotsPre (headFiles : List String) (tfirst tlast : Int)
    (commits : List Commit) : List Hotspot :=
  headFiles.foldl
    (fun hotspots headFile =>
      let score := fileScore headFile tfirst tlast commits
      if score ≠ 0 then hotspots ++ [⟨headFile, score⟩] else hotspots)
    []

/-- `hotspotList.Less` (bugspots.go line 185): `l[i].Score > l[j].Score`. -/
def hotspotLess (a b : Hotspot) : Prop := a.Score > b.Score

/-- The documented contract of Go's `sort.Sort(data)`: the output is a
permutation of the input arranged so that no later element is `Less` than an
earlier one.  Stability is explicitly not guaranteed by `sort.Sort`. -/
def GoSortedBy {α : Type} (less : α → α → Prop) (input output : List α) : Prop :=
  input.Perm output ∧ output.Pairwise (fun x y => ¬ less y x)

/-- The value a failed `headFiles` query leaves behind: the `nil` slice. -/
def orNil : Except String (List String) → List String
  | Except.ok l => l
  | Except.error _ => []

/-- The value a failed timestamp query leaves behind: the zero `int64`. -/
def orZero : Except String Int → Int
  | Except.ok t => t
  | Except.error _ => 0

/-- `Hotspots` (bugspots.go lines 188–214) as a relation between the four
query results and the returned value.  Only the error of the fourth query
(`bugFixCommits`) is ever checked; on its success the hotspot list is built
from whatever values the other queries left behind and sorted per the
`sort.Sort` contract. -/
def HotspotsRel (hfE : Except String (List String)) (t1E t2E : Except String Int)
    (csE : Except String (List Commit)) (res : Except String (List Hotspot)) : Prop :=
  match csE with
  | Except.error e => res = Except.error e
  | Except.ok cs =>
    ∃ l, res = Except.ok l ∧
      GoSortedBy hotspotLess (hotspotsPre (orNil hfE) (orZero t1E) (orZero t2E) cs) l

/-! ## Helper lemmas about the score engine -/

/-- The weight of any commit is strictly positive. -/
lemma scoreFunc_pos (t : ℝ) : 0 < scoreFunc t := by
  unfold scoreFunc
  have h : 0 < 1 + Real.exp (-12 * t + 12) := by positivity
  exact one_div_pos.mpr h

/-- The inner loop of `Hotspots` adds `w` once per occurrence of the head
file in the commit's file list. -/
lemma foldl_score_inner (f : String) (w : ℝ) :
    ∀ (files : List String) (s : ℝ),
      files.foldl (fun sc file => if file = f then sc + w else sc) s
        = s + (files.count f : ℝ) * w := by
  intro files
  induction files with
  | nil => intro s; simp
  | cons a l ih =>
    intro s
    rw [List.foldl_cons]
    by_cases h : a = f
    · subst h
      rw [if_pos rfl, ih, List.count_cons_self]
      push_cast
      ring
    · rw [if_neg h, ih, List.count_cons_of_ne (by exact fun hfa => h hfa.symm)]

/-- `fileScore` in closed form: the per-commit occurrence count times the
commit's weight, summed over all commits. -/
lemma fileScore_eq (f : String) (t1 t2 : Int) (cs : List Commit) :
    fileScore f t1 t2 cs
      = (cs.map fun c => (c.files.count f : ℝ) * scoreFunc (normalizeTimestamp c.t t1 t2)).sum := by
  have aux : ∀ (cs : List Commit) (s : ℝ),
      cs.foldl
        (fun score c =>
          let t := normalizeTimestamp c.t t1 t2
          c.files.foldl (fun sc file => if file = f then sc + scoreFunc t else sc) score) s
      = s + (cs.map fun c =>
          (c.files.count f : ℝ) * scoreFunc (normalizeTimestamp c.t t1 t2)).sum := by
    intro cs
    induction cs with
    | nil => intro s; simp
    | cons c l ih =>
      intro s
      rw [List.foldl_cons]
      dsimp only
      rw [foldl_score_inner, ih, List.map_cons, List.sum_cons]
      ring
  rw [fileScore, aux]
  simp

/-- Scores are sums of non-negative contributions. -/
lemma fileScore_nonneg (f : String) (t1 t2 : Int) (cs : List Commit) :
    0 ≤ fileScore f t1 t2 cs := by
  rw [fileScore_eq]
  apply List.sum_nonneg
  intro x hx
  simp only [List.mem_map] at hx
  obtain ⟨c, -, rfl⟩ := hx
  exact mul_nonneg (Nat.cast_nonneg _) (scoreFunc_pos _).le

/-- A file that occurs in no commit's file list has score zero. -/
lemma fileScore_eq_zero (f : String) (t1 t2 : Int) (cs : List Commit)
    (h : ∀ c ∈ cs, c.files.count f = 0) : fileScore f t1 t2 cs = 0 := by
  rw [fileScore_eq]
  apply List.sum_eq_zero
  intro x hx
  simp only [List.mem_map] at hx
  obtain ⟨c, hc, rfl⟩ := hx
  rw [h c hc]
  simp

/-- The pre-sort hotspot list in `filterMap` form. -/
lemma hotspotsPre_eq (hf : List String) (t1 t2 : Int) (cs : List Commit) :
    hotspotsPre hf t1 t2 cs
      = hf.filterMap fun f =>
          if fileScore f t1 t2 cs ≠ 0 then some ⟨f, fileScore f t1 t2 cs⟩ else none := by
  have aux : ∀ (hf : List String) (acc : List Hotspot),
      hf.foldl
        (fun hotspots headFile =>
          let score := fileScore headFile t1 t2 cs
          if score ≠ 0 then hotspots ++ [⟨headFile, score⟩] else hotspots) acc
      = acc ++ hf.filterMap fun f =>
          if fileScore f t1 t2 cs ≠ 0 then some ⟨f, fileScore f t1 t2 cs⟩ else none := by
    intro hf
    induction hf with
    | nil => intro acc; simp
    | cons f l ih =>
      intro acc
      rw [List.foldl_cons]
      dsimp only
      rw [List.filterMap_cons]
      by_cases h : fileScore f t1 t2 cs ≠ 0
      · rw [if_pos h, if_pos h, ih]
        simp
      · rw [if_neg h, if_neg h, ih]
  rw [hotspotsPre, aux]
  simp

/-- Membership in the pre-sort list: exactly the head files with non-zero
score, carrying that score. -/
lemma mem_hotspotsPre {hf : List String} {t1 t2 : Int} {cs : List Commit} {h : Hotspot} :
    h ∈ hotspotsPre hf t1 t2 cs
      ↔ h.File ∈ hf ∧ fileScore h.File t1 t2 cs ≠ 0 ∧ h.Score = fileScore h.File t1 t2 cs := by
  rw [hotspotsPre_eq, List.mem_filterMap]
  constructor
  · rintro ⟨f, hmem, hg⟩
    by_cases hz : fileScore f t1 t2 cs ≠ 0
    · rw [if_pos hz] at hg
      rw [Option.some_inj] at hg
      subst hg
      exact ⟨hmem, hz, rfl⟩
    · rw [if_neg hz] at hg
      exact absurd hg (by simp)
  · rintro ⟨h1, h2, h3⟩
    refine ⟨h.File, h1, ?_⟩
    rw [if_pos h2, ← h3]

/-- Counting entries for a given path in the pre-sort list: one per
occurrence in the head file list, unless the path's score is zero. -/
lemma countP_hotspotsPre (hf : List String) (t1 t2 : Int) (cs : List Commit) (p : String) :
    (hotspotsPre hf t1 t2 cs).countP (fun h => h.File == p)
      = if fileScore p t1 t2 cs = 0 then 0 else hf.count p := by
  rw [hotspotsPre_eq]
  induction hf with
  | nil => simp
  | cons f l ih =>
    rw [List.filterMap_cons]
    by_cases hz : fileScore f t1 t2 cs ≠ 0
    · rw [if_pos hz, List.countP_cons, ih]
      by_cases hfp : f = p
      · subst hfp
        rw [if_neg hz, if_neg hz, List.count_cons_self]
        simp
      · rw [List.count_cons_of_ne (by exact fun hpf => hfp hpf.symm)]
        simp [hfp]
    · rw [if_neg hz, ih]
      push_neg at hz
      by_cases hfp : f = p
      · subst hfp
        rw [if_pos hz, if_pos hz]
      · rw [List.count_cons_of_ne (by exact fun hpf => hfp hpf.symm)]

/-- Unpacking a successful `Hotspots` run: the output is a permutation of the
pre-sort list, arranged so that scores never increase. -/
lemma hotspotsRel_ok_elim {hf : List String} {t1 t2 : Int} {cs : List Commit}
    {out : List Hotspot}
    (h : HotspotsRel (Except.ok hf) (Except.ok t1) (Except.ok t2) (Except.ok cs)
      (Except.ok out)) :
    (hotspotsPre hf t1 t2 cs).Perm out ∧ out.Pairwise fun x y => ¬ hotspotLess y x := by
  obtain ⟨l, hl, hperm, hpair⟩ := h
  rw [Except.ok.injEq] at hl
  subst hl
  simp only [orNil, orZero] at hperm
  exact ⟨hperm, hpair⟩

/-! ## Numeric bounds for the logistic weight -/

/-- `e^6 > 99` (so the weight at the midpoint is below 1%). -/
lemma exp_six_gt : (99 : ℝ) < Real.exp 6 := by
  have h1 : (2.7182818283 : ℝ) < Real.exp 1 := Real.exp_one_gt_d9
  have h2 : Real.exp 6 = Real.exp 1 ^ 6 := by
    rw [← Real.exp_nat_mul]
    norm_num
  rw [h2]
  calc (99 : ℝ) < 2.7182818283 ^ 6 := by norm_num
    _ < Real.exp 1 ^ 6 := by gcongr

/-- `e^12 > 99` (so the weight at the oldest commit is below 1%). -/
lemma exp_twelve_gt : (99 : ℝ) < Real.exp 12 := by
  have h1 : (2.7182818283 : ℝ) < Real.exp 1 := Real.exp_one_gt_d9
  have h2 : Real.exp 12 = Real.exp 1 ^ 12 := by
    rw [← Real.exp_nat_mul]
    norm_num
  rw [h2]
  calc (99 : ℝ) < 2.7182818283 ^ 12 := by norm_num
    _ < Real.exp 1 ^ 12 := by gcongr

/-- The weight of the most recent commit position is exactly `1/2`. -/
lemma scoreFunc_one : scoreFunc 1 = 1 / 2 := by
  unfold scoreFunc
  norm_num [show (-12 : ℝ) * 1 + 12 = 0 by ring, Real.exp_zero]

/-- The weight at the oldest commit position is below 1%. -/
lemma scoreFunc_zero_lt : scoreFunc 0 < 1 / 100 := by
  unfold scoreFunc
  rw [show (-12 : ℝ) * 0 + 12 = 12 by ring]
  rw [div_lt_div_iff₀ (by positivity) (by norm_num)]
  nlinarith [exp_twelve_gt]

/-- The weight at the midpoint position is still below 1%. -/
lemma scoreFunc_half_lt : scoreFunc (1 / 2) < 1 / 100 := by
  unfold scoreFunc
  rw [show (-12 : ℝ) * (1 / 2) + 12 = 6 by ring]
  rw [div_lt_div_iff₀ (by positivity) (by norm_num)]
  nlinarith [exp_six_gt]

/-- The logistic weight is strictly increasing in the normalized position. -/
lemma scoreFunc_strictMono : StrictMono scoreFunc := by
  intro x y hxy
  unfold scoreFunc
  rw [div_lt_div_iff₀ (by positivity) (by positivity)]
  have h : Real.exp (-12 * y + 12) < Real.exp (-12 * x + 12) :=
    Real.exp_lt_exp.mpr (by linarith)
  linarith

/-! ## Concrete evaluations used by witnesses and counterexamples -/

lemma normalizeTimestamp_one : normalizeTimestamp 1 0 1 = 1 := by
  unfold normalizeTimestamp
  norm_num

lemma fileScore_a_single : fileScore "a" 0 1 [⟨1, ["a"]⟩] = 1 / 2 := by
  rw [fileScore_eq]
  simp [normalizeTimestamp_one, scoreFunc_one]

lemma fileScore_a_pair : fileScore "a" 0 1 [⟨1, ["a", "b"]⟩] = 1 / 2 := by
  rw [fileScore_eq]
  simp [normalizeTimestamp_one, scoreFunc_one, List.count_cons]

lemma fileScore_b_pair : fileScore "b" 0 1 [⟨1, ["a", "b"]⟩] = 1 / 2 := by
  rw [fileScore_eq]
  simp [normalizeTimestamp_one, scoreFunc_one, List.count_cons]

lemma hotspotsPre_single : hotspotsPre ["a"] 0 1 [⟨1, ["a"]⟩] = [⟨"a", 1 / 2⟩] := by
  rw [hotspotsPre_eq]
  simp [List.filterMap_cons, fileScore_a_single]

lemma hotspotsPre_dup :
    hotspotsPre ["a", "a"] 0 1 [⟨1, ["a"]⟩] = [⟨"a", 1 / 2⟩, ⟨"a", 1 / 2⟩] := by
  rw [hotspotsPre_eq]
  simp [List.filterMap_cons, fileScore_a_single]

lemma hotspotsPre_pair :
    hotspotsPre ["a", "b"] 0 1 [⟨1, ["a", "b"]⟩] = [⟨"a", 1 / 2⟩, ⟨"b", 1 / 2⟩] := by
  rw [hotspotsPre_eq]
  simp [List.filterMap_cons, fileScore_a_pair, fileScore_b_pair]

/-- A one-file run of the engine admitting the obvious output. -/
lemma hotspotsRel_single :
    HotspotsRel (Except.ok ["a"]) (Except.ok 0) (Except.ok 1) (Except.ok [⟨1, ["a"]⟩])
      (Except.ok [⟨"a", (1 / 2 : ℝ)⟩]) := by
  refine ⟨[⟨"a", (1 / 2 : ℝ)⟩], rfl, ?_, ?_⟩
  · simp only [orNil, orZero]
    rw [hotspotsPre_single]
  · simp

/-- A duplicated-head-file run of the engine admitting the in-order output. -/
lemma hotspotsRel_dup :
    HotspotsRel (Except.ok ["a", "a"]) (Except.ok 0) (Except.ok 1) (Except.ok [⟨1, ["a"]⟩])
      (Except.ok [⟨"a", (1 / 2 : ℝ)⟩, ⟨"a", (1 / 2 : ℝ)⟩]) := by
  refine ⟨[⟨"a", (1 / 2 : ℝ)⟩, ⟨"a", (1 / 2 : ℝ)⟩], rfl, ?_, ?_⟩
  · simp only [orNil, orZero]
    rw [hotspotsPre_dup]
  · simp [hotspotLess]

/-- Needed by C8: a malformed block anywhere in the batch makes `parseBlocks`
return an error (and hence no partial commit list). -/
lemma parseBlocks_error_of_mem {bs : List (List Char)} {b : List Char} (hmem : b ∈ bs)
    (hbad : goAtoi (((splitLines b).map fun l => String.mk l).headD "") = none) :
    ∃ e, parseBlocks bs = Except.error e := by
  induction bs with
  | nil => cases hmem
  | cons x xs ih =>
    rcases List.mem_cons.mp hmem with rfl | hmem'
    · have hrw : parseBlocks (b :: xs)
          = Except.error ("invalid timestamp " ++ ((splitLines b).map fun l => String.mk l).headD "") := by
        simp only [parseBlocks]
        rw [hbad]
      exact ⟨_, hrw⟩
    · cases hb : goAtoi (((splitLines x).map fun l => String.mk l).headD "") with
      | none =>
        have hrw : parseBlocks (x :: xs)
            = Except.error ("invalid timestamp " ++ ((splitLines x).map fun l => String.mk l).headD "") := by
          simp only [parseBlocks]
          rw [hb]
        exact ⟨_, hrw⟩
      | some t =>
        obtain ⟨e, he⟩ := ih hmem'
        refine ⟨e, ?_⟩
        simp only [parseBlocks]
        rw [hb, he]

/-! ## Claim theorems -/

/-- C1: the Go `Hotspots` reuses one `err` variable across the four history
queries and checks it only after the fourth, so a failure of an earlier query
is masked by a later query's success: here the head-file query fails, the
three later queries succeed, and the operation still returns a successful
(empty) hotspot list instead of surfacing the failure. -/
theorem hotspots_masks_earlier_error :
    HotspotsRel (Except.error "ls-files failed") (Except.ok 0) (Except.ok 1) (Except.ok [])
      (Except.ok []) := by
  refine ⟨[], rfl, ?_, ?_⟩
  · simp only [orNil, orZero]
    simp [hotspotsPre]
  · simp

/-- C2 counterexample: head files `["a", "b"]` and one bug-fix commit
touching both give the two files equal scores `1/2`; the `sort.Sort` contract
(which does not guarantee stability) admits the output that lists `"b"`
before `"a"`, the reverse of the head-file enumeration order, so equal-score
ties need not retain that order. -/
theorem hotspots_tie_order_not_preserved :
    HotspotsRel (Except.ok ["a", "b"]) (Except.ok 0) (Except.ok 1)
      (Except.ok [⟨1, ["a", "b"]⟩])
      (Except.ok [⟨"b", (1 / 2 : ℝ)⟩, ⟨"a", (1 / 2 : ℝ)⟩]) := by
  refine ⟨[⟨"b", (1 / 2 : ℝ)⟩, ⟨"a", (1 / 2 : ℝ)⟩], rfl, ?_, ?_⟩
  · simp only [orNil, orZero]
    rw [hotspotsPre_pair]
    exact List.Perm.swap _ _ _
  · simp [hotspotLess]

/-- C2 (amended): every hotspot list returned by a successful `Hotspots` run
is sorted by descending (non-increasing) score; the relative order of
equal-score entries is not guaranteed. -/
theorem hotspots_sorted_descending (hfE : Except String (List String))
    (t1E t2E : Except String Int) (csE : Except String (List Commit)) (out : List Hotspot)
    (h : HotspotsRel hfE t1E t2E csE (Except.ok out)) :
    out.Pairwise fun x y => y.Score ≤ x.Score := by
  cases csE with
  | error e => simp [HotspotsRel] at h
  | ok cs =>
    obtain ⟨l, hl, -, hpair⟩ := h
    rw [Except.ok.injEq] at hl
    subst hl
    exact hpair.imp fun hxy => not_lt.mp hxy

/-- C2 witness: the sortedness theorem applied to a concrete one-file run. -/
theorem hotspots_sorted_descending_witness :
    ([⟨"a", (1 / 2 : ℝ)⟩] : List Hotspot).Pairwise fun x y => y.Score ≤ x.Score :=
  hotspots_sorted_descending (Except.ok ["a"]) (Except.ok 0) (Except.ok 1)
    (Except.ok [⟨1, ["a"]⟩]) [⟨"a", (1 / 2 : ℝ)⟩] hotspotsRel_single

/-- C3: when the first and last commit timestamps are equal the code performs
the division anyway; under IEEE float64 semantics `normalizeTimestamp`
produces NaN for the commit at that shared timestamp (0/0) and +infinity for
any later timestamp (positive/0) — not an explicitly defined result such as
`x = 1`. -/
theorem normalize_degenerate_range_nan :
    normalizeTimestampF 5 5 5 = F64.nan ∧ normalizeTimestampF 6 5 5 = F64.posInf := by
  constructor <;> norm_num [normalizeTimestampF, f64Div]

/-- C4: `Slicer.Slice` computes the clamped count but slices without capping
it at the list length: on an empty hotspot list with `minCount = 5` the Go
expression `hotspots[:5]` panics (modelled `none`) instead of returning the
empty list; when the clamped count fits (100 entries, percentile 10,
`minCount = 0`), the first 10 entries are returned as specified. -/
theorem slice_overruns_on_min_count :
    (Slicer.mk 5 2147483647 10).Slice ([] : List Nat) = none
    ∧ (Slicer.mk 0 2147483647 10).Slice (List.range 100) = some (List.range 10) := by
  constructor
  · norm_num [Slicer.Slice, goTrunc]
  · norm_num [Slicer.Slice, goTrunc]
    decide

/-- C5 counterexample: the code adds the weight once per *occurrence* of the
path in a commit's file list, not once per commit containing the path: a
commit listing `"a"` twice contributes twice, so the score is
`2 * w(x) ≠ w(x)`. -/
theorem fileScore_counts_occurrences :
    fileScore "a" 0 1 [⟨1, ["a", "a"]⟩] = 2 * scoreFunc (normalizeTimestamp 1 0 1)
    ∧ fileScore "a" 0 1 [⟨1, ["a", "a"]⟩] ≠ scoreFunc (normalizeTimestamp 1 0 1) := by
  have hval : fileScore "a" 0 1 [⟨1, ["a", "a"]⟩]
      = 2 * scoreFunc (normalizeTimestamp 1 0 1) := by
    rw [fileScore_eq]
    simp [List.count_cons]
  refine ⟨hval, ?_⟩
  rw [hval, normalizeTimestamp_one, scoreFunc_one]
  norm_num

/-- C5 (amended): every returned hotspot's score is the sum, over all bug-fix
commits, of the commit's weight `w(x)` multiplied by the number of
occurrences of the file in the commit's touched-file list; head files whose
summed weight is exactly 0 never appear in the output. -/
theorem hotspots_score_formula (hf : List String) (t1 t2 : Int) (cs : List Commit)
    (out : List Hotspot)
    (h : HotspotsRel (Except.ok hf) (Except.ok t1) (Except.ok t2) (Except.ok cs)
      (Except.ok out)) :
    (∀ hs ∈ out, hs.Score
        = (cs.map fun c => (c.files.count hs.File : ℝ)
            * scoreFunc (normalizeTimestamp c.t t1 t2)).sum)
    ∧ ∀ f ∈ hf,
        (cs.map fun c =>
          (c.files.count f : ℝ) * scoreFunc (normalizeTimestamp c.t t1 t2)).sum = 0
        → ∀ hs ∈ out, hs.File ≠ f := by
  obtain ⟨hperm, -⟩ := hotspotsRel_ok_elim h
  constructor
  · intro hs hmem
    obtain ⟨-, -, hsc⟩ := mem_hotspotsPre.mp (hperm.mem_iff.mpr hmem)
    rw [hsc, fileScore_eq]
  · intro f hfmem hzero hs hmem hfile
    obtain ⟨-, hne, -⟩ := mem_hotspotsPre.mp (hperm.mem_iff.mpr hmem)
    apply hne
    rw [hfile, fileScore_eq]
    exact hzero

/-- C5 witness: the amended score formula applied to a concrete one-file
run. -/
theorem hotspots_score_formula_witness :
    (∀ hs ∈ ([⟨"a", (1 / 2 : ℝ)⟩] : List Hotspot), hs.Score
        = (([⟨1, ["a"]⟩] : List Commit).map fun c => (c.files.count hs.File : ℝ)
            * scoreFunc (normalizeTimestamp c.t 0 1)).sum)
    ∧ ∀ f ∈ (["a"] : List String),
        (([⟨1, ["a"]⟩] : List Commit).map fun c =>
          (c.files.count f : ℝ) * scoreFunc (normalizeTimestamp c.t 0 1)).sum = 0
        → ∀ hs ∈ ([⟨"a", (1 / 2 : ℝ)⟩] : List Hotspot), hs.File ≠ f :=
  hotspots_score_formula ["a"] 0 1 [⟨1, ["a"]⟩] [⟨"a", (1 / 2 : ℝ)⟩] hotspotsRel_single

/-- C6 counterexample: at the most recent normalized position `x = 1` the
weight is exactly `1/2` — the maximum attained on `[0,1]` — and in particular
not near 1 (it is below `3/4`). -/
theorem scoreFunc_half_at_one : scoreFunc 1 = 1 / 2 ∧ scoreFunc 1 < 3 / 4 := by
  refine ⟨scoreFunc_one, ?_⟩
  rw [scoreFunc_one]
  norm_num

/-- C6 (amended): the weight function maps old commits (`x` near 0) to
weights near 0 (below 1% at `x = 0`, still below 1% at `x = 1/2`) and recent
commits to weights near its maximum `1/2` (attained at `x = 1`), rising
strictly monotonically with a sharp transition near `x = 1`. -/
theorem scoreFunc_shape :
    scoreFunc 0 < 1 / 100 ∧ scoreFunc (1 / 2) < 1 / 100 ∧ scoreFunc 1 = 1 / 2
    ∧ StrictMono scoreFunc :=
  ⟨scoreFunc_zero_lt, scoreFunc_half_lt, scoreFunc_one, scoreFunc_strictMono⟩

/-- C6 witness: strict monotonicity of the weight applied at `0 < 1`. -/
theorem scoreFunc_shape_witness : scoreFunc 0 < scoreFunc 1 :=
  scoreFunc_shape.2.2.2 (by norm_num : (0 : ℝ) < 1)

/-- C7: every hotspot in a successful `Hotspots` result has a strictly
positive score, and a file contained in no bug-fix commit's file list never
appears in the result.  (Float64 sums are idealized as exact reals; the
degenerate `tfirst = tlast` NaN behaviour is the separate defect of C3.) -/
theorem hotspots_scores_positive (hf : List String) (t1 t2 : Int) (cs : List Commit)
    (out : List Hotspot)
    (h : HotspotsRel (Except.ok hf) (Except.ok t1) (Except.ok t2) (Except.ok cs)
      (Except.ok out)) :
    (∀ hs ∈ out, 0 < hs.Score)
    ∧ ∀ f : String, (∀ c ∈ cs, f ∉ c.files) → ∀ hs ∈ out, hs.File ≠ f := by
  obtain ⟨hperm, -⟩ := hotspotsRel_ok_elim h
  constructor
  · intro hs hmem
    obtain ⟨-, hne, hsc⟩ := mem_hotspotsPre.mp (hperm.mem_iff.mpr hmem)
    rw [hsc]
    exact lt_of_le_of_ne (fileScore_nonneg _ _ _ _) (Ne.symm hne)
  · intro f hnone hs hmem hfile
    obtain ⟨-, hne, -⟩ := mem_hotspotsPre.mp (hperm.mem_iff.mpr hmem)
    apply hne
    rw [hfile]
    exact fileScore_eq_zero _ _ _ _ fun c hc => List.count_eq_zero.mpr (hnone c hc)

/-- C7 witness: positivity and the zero-commit exclusion at a concrete
one-file run. -/
theorem hotspots_scores_positive_witness :
    (∀ hs ∈ ([⟨"a", (1 / 2 : ℝ)⟩] : List Hotspot), 0 < hs.Score)
    ∧ ∀ f : String, (∀ c ∈ ([⟨1, ["a"]⟩] : List Commit), f ∉ c.files)
        → ∀ hs ∈ ([⟨"a", (1 / 2 : ℝ)⟩] : List Hotspot), hs.File ≠ f :=
  hotspots_scores_positive ["a"] 0 1 [⟨1, ["a"]⟩] [⟨"a", (1 / 2 : ℝ)⟩] hotspotsRel_single

/-- C8: `parseLog` returns the empty commit list on empty input, and when any
block's first line fails integer parsing the whole batch fails with an error
(the `Except` result carries no partial commit list). -/
theorem parseLog_empty_and_malformed :
    parseLog "" = Except.ok []
    ∧ ∀ (raw : String) (b : List Char), raw ≠ "" → b ∈ splitBlocks raw.data
        → goAtoi (((splitLines b).map fun l => String.mk l).headD "") = none
        → ∃ e, parseLog raw = Except.error e := by
  refine ⟨rfl, ?_⟩
  intro raw b hraw hmem hbad
  rw [parseLog, if_neg hraw]
  exact parseBlocks_error_of_mem hmem hbad

/-- C8 witness: a batch whose (single) block has the non-integer first line
`x` makes `parseLog` fail. -/
theorem parseLog_malformed_witness :
    ("x\nfoo" : String) ≠ "" ∧ ∃ e, parseLog "x\nfoo" = Except.error e :=
  ⟨by decide,
    parseLog_empty_and_malformed.2 "x\nfoo" ("x\nfoo".data) (by decide) (by decide) (by decide)⟩

/-- C9 counterexample: `NewSlicer` performs no percentile validation — the
out-of-range percentile `-5` is accepted at construction and stored, instead
of failing with a configuration error. -/
theorem newSlicer_accepts_invalid_percentile :
    NewSlicer (-5) = { minCount := 0, maxCount := 2147483647, percentile := -5 } := rfl

/-- C9 (amended): `minCount < 0` and `maxCount ≤ 0` fail (panic) exactly at
configuration time, while the percentile is never validated: `NewSlicer`
stores any value with the default bounds. -/
theorem slicer_config_validation :
    (∀ (s : Slicer) (m : Int), s.SetMinCount m = none ↔ m < 0)
    ∧ (∀ (s : Slicer) (m : Int), s.SetMaxCount m = none ↔ m ≤ 0)
    ∧ ∀ p : ℚ, NewSlicer p = { minCount := 0, maxCount := 2147483647, percentile := p } := by
  refine ⟨fun s m => ?_, fun s m => ?_, fun p => rfl⟩
  · unfold Slicer.SetMinCount
    split_ifs with h
    · simp [h]
    · simp [h]
  · unfold Slicer.SetMaxCount
    split_ifs with h
    · simp [h]
    · simp [h]

/-- C9 witness: the configuration-time checks applied at concrete invalid
arguments. -/
theorem slicer_config_validation_witness :
    (NewSlicer 50).SetMinCount (-1) = none ∧ (NewSlicer 50).SetMaxCount 0 = none :=
  ⟨(slicer_config_validation.1 _ _).mpr (by norm_num),
    (slicer_config_validation.2.1 _ _).mpr (by norm_num)⟩

/-- C10: a path occurring several times in the head-file list yields one
hotspot entry per occurrence (none if its score is zero), and every entry for
that path carries the full summed score — duplicates are not collapsed. -/
theorem hotspots_duplicate_paths (hf : List String) (t1 t2 : Int) (cs : List Commit)
    (out : List Hotspot) (p : String)
    (h : HotspotsRel (Except.ok hf) (Except.ok t1) (Except.ok t2) (Except.ok cs)
      (Except.ok out)) :
    out.countP (fun hs => hs.File == p)
        = (if fileScore p t1 t2 cs = 0 then 0 else hf.count p)
    ∧ ∀ hs ∈ out, hs.File = p → hs.Score = fileScore p t1 t2 cs := by
  obtain ⟨hperm, -⟩ := hotspotsRel_ok_elim h
  constructor
  · rw [← hperm.countP_eq]
    exact countP_hotspotsPre hf t1 t2 cs p
  · intro hs hmem hfile
    obtain ⟨-, -, hsc⟩ := mem_hotspotsPre.mp (hperm.mem_iff.mpr hmem)
    rw [hsc, hfile]

/-- C10 witness: a head-file list containing `"a"` twice yields two entries
for `"a"`, each carrying the full summed score. -/
theorem hotspots_duplicate_paths_witness :
    ([⟨"a", (1 / 2 : ℝ)⟩, ⟨"a", (1 / 2 : ℝ)⟩] : List Hotspot).countP
        (fun hs => hs.File == "a")
        = (if fileScore "a" 0 1 [⟨1, ["a"]⟩] = 0 then 0
           else (["a", "a"] : List String).count "a")
    ∧ ∀ hs ∈ ([⟨"a", (1 / 2 : ℝ)⟩, ⟨"a", (1 / 2 : ℝ)⟩] : List Hotspot), hs.File = "a"
        → hs.Score = fileScore "a" 0 1 [⟨1, ["a"]⟩] :=
  hotspots_duplicate_paths ["a", "a"] 0 1 [⟨1, ["a"]⟩]
    [⟨"a", (1 / 2 : ℝ)⟩, ⟨"a", (1 / 2 : ℝ)⟩] "a" hotspotsRel_dup

/-! ## Sanity checks mirroring the repository's own test vectors
(`bugspots_test.go`) -/

example : splitLines "a\nb".data = [['a'], ['b']] := by decide
example : splitBlocks "1\nfoo\n\n2\nbaz".data = ["1\nfoo".data, "2\nbaz".data] := by decide
example : goAtoi "42" = some 42 := by decide
example : goAtoi "-7" = some (-7) := by decide
example : goAtoi "x" = none := by decide
example : goAtoi "" = none := by decide
example : goAtoi "+" = none := by decide
example : parseLog "1\nfoo\nbar\n\n2\nbaz" =
    Except.ok [⟨1, ["foo", "bar"]⟩, ⟨2, ["baz"]⟩] := rfl
example : parseLog "1\nfoo\n\nx\nbar" = Except.error "invalid timestamp x" := rfl
example : normalizeTimestampF 75 50 100 = F64.num (1 / 2) := by
  norm_num [normalizeTimestampF, f64Div]
example : goTrunc (7 / 2 : ℚ) = 3 := by norm_num [goTrunc]
example : goTrunc (-7 / 2 : ℚ) = -3 := by norm_num [goTrunc]

end Bugspots
